import Mathlib

/-!
Shallow embedding of the area-file parser of `slackmud2`
(`src/area/parser.rs` and `src/area/types.rs`).

Strings are modelled as `List Char` (`Str`), a file as the list of its
physical lines (`List Str`).  Every Rust string primitive used by the
parser (`trim`, `trim_end`, `split_whitespace`, `ends_with('~')`,
`trim_end_matches('~')`, `str::parse::<i32>`) is reimplemented below over
`Str`; whitespace is the ASCII whitespace set, which is the fragment of
Rust's Unicode `char::is_whitespace` exercised by area files.

Stateful iteration over the `Peekable<Lines>` cursor becomes explicit
state passing: every sub-parser takes the list of remaining lines and
returns the parsed value together with the lines it did not consume.
`while let` loops become fuel-indexed structural recursions; the fuel
`lines.length + 1` is proved sufficient (each iteration consumes at least
one line), so the fuelless wrappers are total functions of the input.
-/

deriving instance DecidableEq for Except

namespace Mud

abbrev Str := List Char

def str (s : String) : Str := s.data

/-- ASCII whitespace, the fragment of Rust `char::is_whitespace` used here. -/
def isWs (c : Char) : Bool := c = ' ' || c = '\t' || c = '\r' || c = '\n'

/-- Rust `str::trim_start`. -/
def ltrim (s : Str) : Str := s.dropWhile isWs

/-- Rust `str::trim_end`. -/
def rtrim (s : Str) : Str := (s.reverse.dropWhile isWs).reverse

/-- Rust `str::trim`. -/
def rustTrim (s : Str) : Str := rtrim (ltrim s)

/-- Rust `str::trim_end_matches('~')`: drop every trailing tilde. -/
def stripTildes (s : Str) : Str := (s.reverse.dropWhile (fun c => c = '~')).reverse

/-- Rust `line.trim_end().ends_with('~')`, the tilde-terminator test. -/
def endsTilde (s : Str) : Bool := (rtrim s).getLast? = some '~'

/-- Generic splitter: cut `s` at every character satisfying `p`,
keeping empty pieces (Rust `str::split`). -/
def splitP (p : Char → Bool) : Str → List Str
  | [] => [[]]
  | c :: cs =>
    if p c then [] :: splitP p cs
    else
      match splitP p cs with
      | [] => [[c]]
      | g :: gs => (c :: g) :: gs

/-- Rust `str::split_whitespace`: split on whitespace, no empty tokens. -/
def splitWs (s : Str) : List Str := (splitP isWs s).filter (fun t => !t.isEmpty)

/-- Rust `str::split('\n')`. -/
def splitNl (s : Str) : List Str := splitP (fun c => c = '\n') s

/-- Does `s` begin with `pat`? (Rust `str::starts_with` on a literal). -/
def startsWith (pat s : Str) : Bool := s.take pat.length == pat

def isDigitCh (c : Char) : Bool := '0' ≤ c && c ≤ '9'

def digitsValAux (acc : Nat) : Str → Option Nat
  | [] => some acc
  | c :: cs => if isDigitCh c then digitsValAux (acc * 10 + (c.toNat - 48)) cs else none

/-- Rust `str::parse::<i32>()`: optional sign, one or more ASCII digits,
value within the `i32` range; anything else is a parse error. -/
def parseI32 (s : Str) : Option Int :=
  match s with
  | [] => none
  | '+' :: ds =>
    if ds = [] then none
    else (digitsValAux 0 ds).bind fun n => if n ≤ 2 ^ 31 - 1 then some (n : Int) else none
  | '-' :: ds =>
    if ds = [] then none
    else (digitsValAux 0 ds).bind fun n => if n ≤ 2 ^ 31 then some (-(n : Int)) else none
  | ds =>
    (digitsValAux 0 ds).bind fun n => if n ≤ 2 ^ 31 - 1 then some (n : Int) else none

/-- The parser's error type (`types.rs`).  The constructors
`InvalidObjectType`, `InvalidObjectWeightCost` and `InvalidResetCommand`
are referenced by `parser.rs` but their declaration is not in the `src/`
snapshot of `types.rs`; they are modelled from the spec's §7 error
taxonomy.  `ParseInt` is the wrapped `std::num::ParseIntError`. -/
inductive ParseError where
  | UnexpectedEof
  | InvalidVnum
  | InvalidDirection
  | InvalidSectorType
  | InvalidRoomAttributes
  | InvalidExitData
  | InvalidObjectType
  | InvalidObjectWeightCost
  | InvalidResetCommand
  | ParseInt
  | MissingField (name : Str)
deriving DecidableEq, Repr

/-- Rust `parts[i].parse::<i32>()?` with the `#[from]` conversion into
`ParseError::ParseInt`. -/
def pInt (t : Str) : Except ParseError Int :=
  match parseI32 t with
  | some n => .ok n
  | none => .error .ParseInt

structure AreaHeader where
  filename : Str
  name : Str
  credits : Str
  min_vnum : Int
  max_vnum : Int
deriving DecidableEq, Repr

inductive Direction where
  | North | East | South | West | Up | Down
deriving DecidableEq, Repr

def Direction.from_code (code : Int) : Option Direction :=
  match code with
  | 0 => some .North
  | 1 => some .East
  | 2 => some .South
  | 3 => some .West
  | 4 => some .Up
  | 5 => some .Down
  | _ => none

inductive SectorType where
  | Inside | City | Field | Forest | Hills | Mountain
  | WaterSwim | WaterNoSwim | Underwater | Air | Desert
deriving DecidableEq, Repr

def SectorType.from_code (code : Int) : Option SectorType :=
  match code with
  | 0 => some .Inside
  | 1 => some .City
  | 2 => some .Field
  | 3 => some .Forest
  | 4 => some .Hills
  | 5 => some .Mountain
  | 6 => some .WaterSwim
  | 7 => some .WaterNoSwim
  | 8 => some .Underwater
  | 9 => some .Air
  | 10 => some .Desert
  | _ => none

/-- Rust `RoomFlags` is a `u32` bit-set; modelled as `Nat` (all values stay
below `2 ^ 32` since only bits 0..21 are ever set). -/
abbrev RoomFlags := Nat

namespace RoomFlags

def DARK : RoomFlags := 1 <<< 0
def NO_MOB : RoomFlags := 1 <<< 2
def INDOORS : RoomFlags := 1 <<< 3
def PRIVATE : RoomFlags := 1 <<< 9
def SAFE : RoomFlags := 1 <<< 10
def SOLITARY : RoomFlags := 1 <<< 11
def PET_SHOP : RoomFlags := 1 <<< 12
def NO_RECALL : RoomFlags := 1 <<< 13
def IMP_ONLY : RoomFlags := 1 <<< 14
def GODS_ONLY : RoomFlags := 1 <<< 15
def HEROES_ONLY : RoomFlags := 1 <<< 16
def NEWBIES_ONLY : RoomFlags := 1 <<< 17
def LAW : RoomFlags := 1 <<< 18
def NOWHERE : RoomFlags := 1 <<< 19
def BANK : RoomFlags := 1 <<< 20
def ARENA : RoomFlags := 1 <<< 21

/-- Rust `bitflags` `contains`: every bit of `fl` is set in `a`. -/
def contains (a fl : RoomFlags) : Bool := a &&& fl == fl

/-- Rust `RoomFlags::from_str`: decode one-letter codes, ignoring unknown
letters. -/
def from_str (flags_str : Str) : RoomFlags :=
  flags_str.foldl
    (fun flags ch =>
      match ch with
      | 'D' => flags ||| DARK
      | 'C' => flags ||| NO_RECALL
      | 'S' => flags ||| SAFE
      | 'B' => flags ||| BANK
      | 'J' => flags ||| PRIVATE
      | 'K' => flags ||| NO_MOB
      | 'L' => flags ||| LAW
      | 'A' => flags ||| ARENA
      | 'G' => flags ||| GODS_ONLY
      | 'H' => flags ||| HEROES_ONLY
      | 'N' => flags ||| NEWBIES_ONLY
      | 'O' => flags ||| SOLITARY
      | 'P' => flags ||| PET_SHOP
      | 'I' => flags ||| INDOORS
      | _ => flags)
    0

end RoomFlags

structure AreaExit where
  direction : Direction
  description : Str
  keyword : Option Str
  door_flags : Int
  key_vnum : Int
  to_room : Int
deriving DecidableEq, Repr

structure ExtraDescription where
  keywords : List Str
  description : Str
deriving DecidableEq, Repr

structure AreaRoom where
  vnum : Int
  name : Str
  description : Str
  area_vnum : Int
  room_flags : RoomFlags
  sector_type : SectorType
  exits : List AreaExit
  extra_descs : List ExtraDescription
deriving DecidableEq, Repr

/-- Modelled from the spec: the `AreaObject` record (§3) is constructed
by `parse_single_object` in `parser.rs` but its declaration is missing
from the `src/` snapshot of `types.rs`.  Field list and types follow the
spec's §3 `AreaObject` entry and the construction site in `parser.rs`. -/
structure AreaObject where
  vnum : Int
  keywords : Str
  short_description : Str
  long_description : Str
  material : Str
  item_type : Str
  extra_flags : Str
  wear_flags : Str
  value0 : Int
  value1 : Int
  value2 : Str
  value3 : Int
  value4 : Int
  weight : Int
  cost : Int
  level : Int
  condition : Str
  extra_descriptions : List ExtraDescription
deriving DecidableEq, Repr

/-- Modelled from the spec: the `Reset` tagged union (§3) is constructed
by `parse_single_reset` in `parser.rs` and consumed by `main.rs`, but its
declaration is missing from the `src/` snapshot of `types.rs`.  The seven
variants and their fields follow the spec's §3 `Reset` entry and the
construction sites in `parser.rs`. -/
inductive Reset where
  | Mobile (if_flag mob_vnum limit room_vnum max_in_room : Int)
  | ObjectInRoom (if_flag obj_vnum limit room_vnum : Int)
  | GiveObject (if_flag obj_vnum limit : Int)
  | EquipObject (if_flag obj_vnum limit wear_location : Int)
  | PutInContainer (if_flag obj_vnum limit container_vnum : Int)
  | Door (room_vnum direction state : Int)
  | RandomizeExits (room_vnum num_exits : Int)
deriving DecidableEq, Repr

/-- The root output record.  `header` and `rooms` are declared in the
`src/` snapshot of `types.rs`; the `objects` and `resets` fields are
modelled from the spec (§3: "one `AreaHeader`, an ordered sequence of
`AreaRoom`, an ordered sequence of `AreaObject`, an ordered sequence of
`Reset`"), since `parse_area_file` and `main.rs` assign and read
`area.objects` / `area.resets` but the snapshot's declaration lacks
them. -/
structure AreaFile where
  header : AreaHeader
  rooms : List AreaRoom
  objects : List AreaObject
  resets : List Reset
deriving DecidableEq, Repr

/-- Rust `AreaFile::default()`: derived `Default` — empty strings, zero vnums,
empty sequences. -/
def AreaFile.default : AreaFile :=
  { header := ⟨[], [], [], 0, 0⟩, rooms := [], objects := [], resets := [] }

/-- One `result.push('\n'); result.push_str(line)` step of
`read_until_tilde` (`parser.rs` 225–236): the separator is added only when
the accumulator is nonempty. -/
def tildePush (acc l : Str) : Str :=
  (if acc ≠ [] then acc ++ ['\n'] else acc) ++ l

/-- Rust `read_until_tilde`'s loop, with the accumulated `result` string made
explicit.  Mirrors `parser.rs` lines 213–241. -/
def read_until_tilde_aux (result : Str) : List Str → Except ParseError (Str × List Str)
  | [] => .error .UnexpectedEof
  | line :: rest =>
    if endsTilde line then
      let without_tilde := stripTildes (rtrim line)
      let result2 := if without_tilde ≠ [] then tildePush result without_tilde else result
      .ok (rustTrim result2, rest)
    else
      read_until_tilde_aux (tildePush result line) rest

/-- Read a tilde-terminated multi-line field. -/
def read_until_tilde (lines : List Str) : Except ParseError (Str × List Str) :=
  read_until_tilde_aux [] lines

/-- Rust `parse_area_header` (`parser.rs` 39–65). -/
def parse_area_header (lines : List Str) : Except ParseError (AreaHeader × List Str) := do
  let (filename, lines) ← read_until_tilde lines
  let (name, lines) ← read_until_tilde lines
  let (credits, lines) ← read_until_tilde lines
  match lines with
  | [] => .error .UnexpectedEof
  | vnum_line :: lines =>
    let parts := splitWs vnum_line
    if parts.length < 2 then .error (.MissingField (str "vnum range"))
    else do
      let min_vnum ← pInt (parts.getD 0 [])
      let max_vnum ← pInt (parts.getD 1 [])
      .ok (⟨filename, name, credits, min_vnum, max_vnum⟩, lines)

/-- Rust `parse_vnum` (`parser.rs` 271–281). -/
def parse_vnum (line : Str) : Except ParseError Int :=
  match rustTrim line with
  | '#' :: rest =>
    match parseI32 rest with
    | some n => .ok n
    | none => .error .InvalidVnum
  | _ => .error .InvalidVnum

/-- Rust `parse_direction` (`parser.rs` 258–269): `D<digit>`, decoded through
`Direction::from_code`. -/
def parse_direction (line : Str) : Except ParseError Direction :=
  match rustTrim line with
  | 'D' :: c :: _ =>
    if isDigitCh c then
      match Direction.from_code ((c.toNat : Int) - 48) with
      | some d => .ok d
      | none => .error .InvalidDirection
    else .error .InvalidDirection
  | _ => .error .InvalidDirection

/-- Rust `parse_room_attributes` (`parser.rs` 243–256). -/
def parse_room_attributes (line : Str) : Except ParseError (Int × RoomFlags × SectorType) :=
  let parts := splitWs line
  if parts.length < 3 then .error .InvalidRoomAttributes
  else do
    let area_vnum ← pInt (parts.getD 0 [])
    let flags := RoomFlags.from_str (parts.getD 1 [])
    let code ← pInt (parts.getD 2 [])
    match SectorType.from_code code with
    | some sector => .ok (area_vnum, flags, sector)
    | none => .error .InvalidSectorType

/-- Rust `parse_exit` (`parser.rs` 148–187). -/
def parse_exit (lines : List Str) : Except ParseError (AreaExit × List Str) :=
  match lines with
  | [] => .error .UnexpectedEof
  | dir_line :: rest => do
    let direction ← parse_direction dir_line
    let (description, rest) ← read_until_tilde rest
    let (keyword_raw, rest) ← read_until_tilde rest
    let keyword := if keyword_raw.isEmpty then none else some keyword_raw
    match rest with
    | [] => .error .UnexpectedEof
    | exit_data :: rest =>
      let parts := splitWs exit_data
      if parts.length < 3 then .error .InvalidExitData
      else do
        let door_flags ← pInt (parts.getD 0 [])
        let key_vnum ← pInt (parts.getD 1 [])
        let to_room ← pInt (parts.getD 2 [])
        .ok (⟨direction, description, keyword, door_flags, key_vnum, to_room⟩, rest)

/-- Rust `parse_extra_desc` (`parser.rs` 189–210).  The `E` marker line is
consumed unconditionally (`lines.next()` with the value discarded). -/
def parse_extra_desc (lines : List Str) : Except ParseError (ExtraDescription × List Str) := do
  let rest := lines.tail
  let (keywords_raw, rest) ← read_until_tilde rest
  let keywords := splitWs keywords_raw
  let (description, rest) ← read_until_tilde rest
  .ok (⟨keywords, description⟩, rest)

/-- The exit / extra-description loop of `parse_single_room`
(`parser.rs` 121–134), fuel-indexed; `none` means the fuel ran out. -/
def parse_room_tail :
    Nat → List Str → List AreaExit → List ExtraDescription →
    Option (Except ParseError ((List AreaExit × List ExtraDescription) × List Str))
  | 0, _, _, _ => none
  | _ + 1, [], exits, extras => some (.ok ((exits, extras), []))
  | fuel + 1, line :: rest, exits, extras =>
    let trimmed := rustTrim line
    if trimmed = ['S'] then some (.ok ((exits, extras), rest))
    else if trimmed.head? = some 'D' then
      match parse_exit (line :: rest) with
      | .ok (e, rest2) => parse_room_tail fuel rest2 (exits ++ [e]) extras
      | .error e => some (.error e)
    else if trimmed = ['E'] then
      match parse_extra_desc (line :: rest) with
      | .ok (d, rest2) => parse_room_tail fuel rest2 exits (extras ++ [d])
      | .error e => some (.error e)
    else parse_room_tail fuel rest exits extras

/-- Rust `parse_single_room` (`parser.rs` 99–146). -/
def parse_single_room (lines : List Str) : Except ParseError (AreaRoom × List Str) :=
  match lines with
  | [] => .error .UnexpectedEof
  | vnum_line :: rest => do
    let vnum ← parse_vnum vnum_line
    let (name, rest) ← read_until_tilde rest
    let (description, rest) ← read_until_tilde rest
    match rest with
    | [] => .error .UnexpectedEof
    | attr_line :: rest => do
      let (area_vnum, room_flags, sector_type) ← parse_room_attributes attr_line
      match parse_room_tail (rest.length + 1) rest [] [] with
      | some (.ok ((exits, extra_descs), rest2)) =>
        .ok (⟨vnum, name, description, area_vnum, room_flags, sector_type,
              exits, extra_descs⟩, rest2)
      | some (.error e) => .error e
      | none => .error .UnexpectedEof

/-- Section-end test of `parse_rooms` (`parser.rs` 77–84). -/
def roomsSectionEnd (trimmed : Str) : Bool :=
  startsWith (str "#RESETS") trimmed || startsWith (str "#MOBILES") trimmed ||
  startsWith (str "#OBJECTS") trimmed || startsWith (str "#SHOPS") trimmed ||
  startsWith (str "#SPECIALS") trimmed || startsWith (str "#$") trimmed ||
  trimmed == str "#0"

/-- The `parse_rooms` loop (`parser.rs` 67–97), fuel-indexed. -/
def parse_roomsF :
    Nat → List Str → List AreaRoom → Option (Except ParseError (List AreaRoom × List Str))
  | 0, _, _ => none
  | _ + 1, [], rooms => some (.ok (rooms, []))
  | fuel + 1, line :: rest, rooms =>
    let trimmed := rustTrim line
    if roomsSectionEnd trimmed then some (.ok (rooms, line :: rest))
    else
      match trimmed with
      | '#' :: _ :: _ =>
        match parse_single_room (line :: rest) with
        | .ok (room, rest2) => parse_roomsF fuel rest2 (rooms ++ [room])
        | .error e => some (.error e)
      | _ => parse_roomsF fuel rest rooms

/-- Rust `parse_rooms`: the loop run with sufficient fuel. -/
def parse_rooms (lines : List Str) : Except ParseError (List AreaRoom × List Str) :=
  match parse_roomsF (lines.length + 1) lines [] with
  | some r => r
  | none => .error .UnexpectedEof

/-- Rust `parse_object_type_line` (`parser.rs` 384–396). -/
def parse_object_type_line (line : Str) : Except ParseError (Str × Str × Str) :=
  let parts := splitWs line
  match parts with
  | [] => .error .InvalidObjectType
  | item_type :: _ => .ok (item_type, parts.getD 1 (str "0"), parts.getD 2 (str "A"))

def isQuoteCh (c : Char) : Bool := c = Char.ofNat 39 || c = '"'

/-- Rust `trim_matches(|c| c == quote)`: strip quote characters from both
ends. -/
def trimQuotes (s : Str) : Str :=
  ((s.dropWhile isQuoteCh).reverse.dropWhile isQuoteCh).reverse

/-- Rust `parse_object_values_line` (`parser.rs` 398–422): lenient decode of
the five value slots. -/
def parse_object_values_line (line : Str) :
    Except ParseError (Int × Int × Str × Int × Int) :=
  let parts := splitWs line
  let value0 := (parseI32 (parts.getD 0 (str "0"))).getD 0
  let value1 := (parseI32 (parts.getD 1 (str "0"))).getD 0
  let value2_raw := parts.getD 2 (str "0")
  let value2 :=
    if value2_raw.head? = some (Char.ofNat 39) || value2_raw.head? = some '"' then
      trimQuotes value2_raw
    else value2_raw
  let value3 := (parseI32 (parts.getD 3 (str "0"))).getD 0
  let value4 := (parseI32 (parts.getD 4 (str "0"))).getD 0
  .ok (value0, value1, value2, value3, value4)

/-- Rust `parse_object_weight_line` (`parser.rs` 424–437). -/
def parse_object_weight_line (line : Str) : Except ParseError (Int × Int × Int × Str) :=
  let parts := splitWs line
  if parts.length < 4 then .error .InvalidObjectWeightCost
  else do
    let weight ← pInt (parts.getD 0 [])
    let cost ← pInt (parts.getD 1 [])
    let level ← pInt (parts.getD 2 [])
    .ok (weight, cost, level, parts.getD 3 [])

/-- The extra-description loop of `parse_single_object`
(`parser.rs` 348–360), fuel-indexed. -/
def parse_object_extras :
    Nat → List Str → List ExtraDescription →
    Option (Except ParseError (List ExtraDescription × List Str))
  | 0, _, _ => none
  | _ + 1, [], acc => some (.ok (acc, []))
  | fuel + 1, line :: rest, acc =>
    let trimmed := rustTrim line
    if trimmed = ['E'] then
      match parse_extra_desc (line :: rest) with
      | .ok (d, rest2) => parse_object_extras fuel rest2 (acc ++ [d])
      | .error e => some (.error e)
    else if trimmed.head? = some '#' then some (.ok (acc, line :: rest))
    else parse_object_extras fuel rest acc

/-- Rust `parse_single_object` (`parser.rs` 315–382). -/
def parse_single_object (lines : List Str) : Except ParseError (AreaObject × List Str) :=
  match lines with
  | [] => .error .UnexpectedEof
  | vnum_line :: rest => do
    let vnum ← parse_vnum vnum_line
    let (keywords, rest) ← read_until_tilde rest
    let (short_description, rest) ← read_until_tilde rest
    let (long_description, rest) ← read_until_tilde rest
    let (material, rest) ← read_until_tilde rest
    match rest with
    | [] => .error .UnexpectedEof
    | type_line :: rest => do
      let (item_type, extra_flags, wear_flags) ← parse_object_type_line type_line
      match rest with
      | [] => .error .UnexpectedEof
      | values_line :: rest => do
        let (value0, value1, value2, value3, value4) ← parse_object_values_line values_line
        match rest with
        | [] => .error .UnexpectedEof
        | weight_line :: rest => do
          let (weight, cost, level, condition) ← parse_object_weight_line weight_line
          match parse_object_extras (rest.length + 1) rest [] with
          | some (.ok (extra_descriptions, rest2)) =>
            .ok (⟨vnum, keywords, short_description, long_description, material,
                  item_type, extra_flags, wear_flags, value0, value1, value2,
                  value3, value4, weight, cost, level, condition,
                  extra_descriptions⟩, rest2)
          | some (.error e) => .error e
          | none => .error .UnexpectedEof

/-- Section-end test of `parse_objects` (`parser.rs` 293–300). -/
def objectsSectionEnd (trimmed : Str) : Bool :=
  startsWith (str "#RESETS") trimmed || startsWith (str "#MOBILES") trimmed ||
  startsWith (str "#ROOMS") trimmed || startsWith (str "#SHOPS") trimmed ||
  startsWith (str "#SPECIALS") trimmed || startsWith (str "#$") trimmed ||
  trimmed == str "#0"

/-- The `parse_objects` loop (`parser.rs` 283–313), fuel-indexed. -/
def parse_objectsF :
    Nat → List Str → List AreaObject → Option (Except ParseError (List AreaObject × List Str))
  | 0, _, _ => none
  | _ + 1, [], objects => some (.ok (objects, []))
  | fuel + 1, line :: rest, objects =>
    let trimmed := rustTrim line
    if objectsSectionEnd trimmed then some (.ok (objects, line :: rest))
    else
      match trimmed with
      | '#' :: _ :: _ =>
        match parse_single_object (line :: rest) with
        | .ok (obj, rest2) => parse_objectsF fuel rest2 (objects ++ [obj])
        | .error e => some (.error e)
      | _ => parse_objectsF fuel rest objects

/-- Rust `parse_objects`: the loop run with sufficient fuel. -/
def parse_objects (lines : List Str) : Except ParseError (List AreaObject × List Str) :=
  match parse_objectsF (lines.length + 1) lines [] with
  | some r => r
  | none => .error .UnexpectedEof

/-- The comment-stripping step of `parse_single_reset` (`parser.rs`
474–481): trim, then cut at the first `*` and trim again. -/
def reset_stripped (line0 : Str) : Str :=
  let line1 := rustTrim line0
  if line1.contains '*' then rustTrim (line1.takeWhile (fun c => c ≠ '*'))
  else line1

/-- The per-command minimum token counts checked by `parse_single_reset`
(`parser.rs` 494, 507, 519, 530, 543, 554, 565). -/
def reset_min_count (c : Char) : Nat :=
  match c with
  | 'M' => 6
  | 'O' => 5
  | 'E' => 5
  | 'P' => 5
  | 'G' => 4
  | 'D' => 4
  | 'R' => 3
  | _ => 0

/-- Rust `parse_single_reset` (`parser.rs` 473–575). -/
def parse_single_reset (line0 : Str) : Except ParseError (Option Reset) :=
  let parts := splitWs (reset_stripped line0)
  match parts with
  | [] => .ok none
  | cmd :: _ =>
    if cmd = ['M'] then
      if parts.length < 6 then .error .InvalidResetCommand
      else do
        let a ← pInt (parts.getD 1 [])
        let b ← pInt (parts.getD 2 [])
        let c ← pInt (parts.getD 3 [])
        let d ← pInt (parts.getD 4 [])
        let e ← pInt (parts.getD 5 [])
        .ok (some (.Mobile a b c d e))
    else if cmd = ['O'] then
      if parts.length < 5 then .error .InvalidResetCommand
      else do
        let a ← pInt (parts.getD 1 [])
        let b ← pInt (parts.getD 2 [])
        let c ← pInt (parts.getD 3 [])
        let d ← pInt (parts.getD 4 [])
        .ok (some (.ObjectInRoom a b c d))
    else if cmd = ['G'] then
      if parts.length < 4 then .error .InvalidResetCommand
      else do
        let a ← pInt (parts.getD 1 [])
        let b ← pInt (parts.getD 2 [])
        let c ← pInt (parts.getD 3 [])
        .ok (some (.GiveObject a b c))
    else if cmd = ['E'] then
      if parts.length < 5 then .error .InvalidResetCommand
      else do
        let a ← pInt (parts.getD 1 [])
        let b ← pInt (parts.getD 2 [])
        let c ← pInt (parts.getD 3 [])
        let d ← pInt (parts.getD 4 [])
        .ok (some (.EquipObject a b c d))
    else if cmd = ['P'] then
      if parts.length < 5 then .error .InvalidResetCommand
      else do
        let a ← pInt (parts.getD 1 [])
        let b ← pInt (parts.getD 2 [])
        let c ← pInt (parts.getD 3 [])
        let d ← pInt (parts.getD 4 [])
        .ok (some (.PutInContainer a b c d))
    else if cmd = ['D'] then
      if parts.length < 4 then .error .InvalidResetCommand
      else do
        let a ← pInt (parts.getD 1 [])
        let b ← pInt (parts.getD 2 [])
        let c ← pInt (parts.getD 3 [])
        .ok (some (.Door a b c))
    else if cmd = ['R'] then
      if parts.length < 3 then .error .InvalidResetCommand
      else do
        let a ← pInt (parts.getD 1 [])
        let b ← pInt (parts.getD 2 [])
        .ok (some (.RandomizeExits a b))
    else .ok none

/-- Section-end test of `parse_resets` (`parser.rs` 449–453). -/
def resetsSectionEnd (trimmed : Str) : Bool :=
  startsWith (str "#SHOPS") trimmed || startsWith (str "#SPECIALS") trimmed ||
  startsWith (str "#$") trimmed || trimmed == str "S"

/-- The `parse_resets` loop (`parser.rs` 439–471), fuel-indexed. -/
def parse_resetsF :
    Nat → List Str → List Reset → Option (Except ParseError (List Reset × List Str))
  | 0, _, _ => none
  | _ + 1, [], acc => some (.ok (acc, []))
  | fuel + 1, line :: rest, acc =>
    let trimmed := rustTrim line
    if resetsSectionEnd trimmed then some (.ok (acc, line :: rest))
    else if trimmed.head? = some '*' || trimmed.isEmpty then parse_resetsF fuel rest acc
    else
      match parse_single_reset line with
      | .ok (some r) => parse_resetsF fuel rest (acc ++ [r])
      | .ok none => parse_resetsF fuel rest acc
      | .error e => some (.error e)

/-- Rust `parse_resets`: the loop run with sufficient fuel. -/
def parse_resets (lines : List Str) : Except ParseError (List Reset × List Str) :=
  match parse_resetsF (lines.length + 1) lines [] with
  | some r => r
  | none => .error .UnexpectedEof

/-- The section-dispatcher loop of `parse_area_file` (`parser.rs` 5–37),
fuel-indexed over the remaining lines. -/
def parse_area_fileF : Nat → List Str → AreaFile → Option (Except ParseError AreaFile)
  | 0, _, _ => none
  | _ + 1, [], area => some (.ok area)
  | fuel + 1, line :: rest, area =>
    let trimmed := rustTrim line
    if trimmed = str "#AREA" then
      match parse_area_header rest with
      | .ok (hdr, rest2) => parse_area_fileF fuel rest2 { area with header := hdr }
      | .error e => some (.error e)
    else if trimmed = str "#ROOMS" then
      match parse_rooms rest with
      | .ok (rooms, rest2) => parse_area_fileF fuel rest2 { area with rooms := rooms }
      | .error e => some (.error e)
    else if trimmed = str "#OBJECTS" then
      match parse_objects rest with
      | .ok (objects, rest2) => parse_area_fileF fuel rest2 { area with objects := objects }
      | .error e => some (.error e)
    else if trimmed = str "#RESETS" then
      match parse_resets rest with
      | .ok (resets, rest2) => parse_area_fileF fuel rest2 { area with resets := resets }
      | .error e => some (.error e)
    else if trimmed = str "#$" then some (.ok area)
    else parse_area_fileF fuel rest area

/-- Rust `parse_area_file` over a list of lines: the dispatcher loop run with
sufficient fuel. -/
def parse_area_file (lines : List Str) : Except ParseError AreaFile :=
  match parse_area_fileF (lines.length + 1) lines AreaFile.default with
  | some r => r
  | none => .error .UnexpectedEof

/-- Strip a single trailing carriage return (the `\r` of a `\r\n` line
ending). -/
def stripCr (l : Str) : Str :=
  if l.getLast? = some '\r' then l.dropLast else l

/-- Rust `str::lines()`: split on `'\n'`; every piece that was terminated
by a newline has one trailing `'\r'` stripped; a trailing newline yields
no final empty line; a final piece without a newline keeps any `'\r'`. -/
def rustLines (content : Str) : List Str :=
  let segs := splitNl content
  let init := segs.dropLast.map stripCr
  match segs.getLast? with
  | some [] => init
  | some lastSeg => init ++ [lastSeg]
  | none => init

/-- Rust `parse_area_file` on the raw file content (`content.lines()`). -/
def parse_area_file_str (content : Str) : Except ParseError AreaFile :=
  parse_area_file (rustLines content)

/-! ### Infrastructure lemmas: bind inversion and line consumption -/

theorem except_bind_ok {ε α β : Type _} (e : Except ε α) (f : α → Except ε β) (b : β) :
    (e >>= f) = .ok b ↔ ∃ a, e = .ok a ∧ f a = .ok b := by
  cases e <;> simp [Bind.bind, Except.bind]

theorem read_until_tilde_aux_rest_lt :
    ∀ (ls : List Str) (acc r : Str) (rest : List Str),
      read_until_tilde_aux acc ls = .ok (r, rest) → rest.length < ls.length := by
  intro ls
  induction ls with
  | nil => intro acc r rest h; simp [read_until_tilde_aux] at h
  | cons line tail ih =>
    intro acc r rest h
    simp only [read_until_tilde_aux] at h
    by_cases he : endsTilde line = true
    · simp only [he, if_true, Except.ok.injEq, Prod.mk.injEq] at h
      rw [← h.2]
      exact Nat.lt_succ_self _
    · rw [if_neg he] at h
      exact Nat.lt_succ_of_lt (ih _ _ _ h)

theorem read_until_tilde_rest_lt (ls : List Str) (r : Str) (rest : List Str)
    (h : read_until_tilde ls = .ok (r, rest)) : rest.length < ls.length :=
  read_until_tilde_aux_rest_lt ls [] r rest h

theorem parse_exit_rest_lt (ls : List Str) (ex : AreaExit) (rest : List Str)
    (h : parse_exit ls = .ok (ex, rest)) : rest.length < ls.length := by
  match ls with
  | [] => simp [parse_exit] at h
  | dir_line :: tl =>
    simp only [parse_exit] at h
    rcases (except_bind_ok _ _ _).mp h with ⟨d, _, h⟩
    rcases (except_bind_ok _ _ _).mp h with ⟨⟨desc, r1⟩, h1, h⟩
    dsimp only at h
    rcases (except_bind_ok _ _ _).mp h with ⟨⟨kw, r2⟩, h2, h⟩
    dsimp only at h
    have hr1 := read_until_tilde_rest_lt _ _ _ h1
    have hr2 := read_until_tilde_rest_lt _ _ _ h2
    match r2, h2, hr2, h with
    | [], h2, hr2, h => dsimp only at h; exact absurd h (by simp)
    | ed :: r3, h2, hr2, h =>
      dsimp only at h
      by_cases hlen : (splitWs ed).length < 3
      · rw [if_pos hlen] at h; exact absurd h (by simp)
      · rw [if_neg hlen] at h
        rcases (except_bind_ok _ _ _).mp h with ⟨_, _, h⟩
        rcases (except_bind_ok _ _ _).mp h with ⟨_, _, h⟩
        rcases (except_bind_ok _ _ _).mp h with ⟨_, _, h⟩
        simp only [Except.ok.injEq, Prod.mk.injEq] at h
        rw [← h.2]
        simp only [List.length_cons] at hr2 ⊢
        omega

theorem parse_extra_desc_rest_lt (ls : List Str) (d : ExtraDescription) (rest : List Str)
    (h : parse_extra_desc ls = .ok (d, rest)) : rest.length < ls.length := by
  simp only [parse_extra_desc] at h
  rcases (except_bind_ok _ _ _).mp h with ⟨⟨kws, r1⟩, h1, h⟩
  dsimp only at h
  rcases (except_bind_ok _ _ _).mp h with ⟨⟨ds, r2⟩, h2, h⟩
  dsimp only at h
  simp only [pure, Except.pure, Except.ok.injEq, Prod.mk.injEq] at h
  have hr1 := read_until_tilde_rest_lt _ _ _ h1
  have hr2 := read_until_tilde_rest_lt _ _ _ h2
  have htail : ls.tail.length ≤ ls.length := by
    cases ls <;> simp
  rw [← h.2]
  omega

theorem parse_room_tail_rest_le :
    ∀ (fuel : Nat) (ls : List Str) (exits : List AreaExit) (extras : List ExtraDescription)
      (p : List AreaExit × List ExtraDescription) (rest2 : List Str),
      parse_room_tail fuel ls exits extras = some (.ok (p, rest2)) →
      rest2.length ≤ ls.length := by
  intro fuel
  induction fuel with
  | zero => intro ls _ _ _ _ h; simp [parse_room_tail] at h
  | succ n ih =>
    intro ls exits extras p rest2 h
    match ls with
    | [] =>
      simp only [parse_room_tail, Option.some.injEq, Except.ok.injEq, Prod.mk.injEq] at h
      cases h.2
      exact Nat.le_refl _
    | line :: rest =>
      simp only [parse_room_tail] at h
      by_cases hS : rustTrim line = ['S']
      · rw [if_pos hS] at h
        simp only [Option.some.injEq, Except.ok.injEq, Prod.mk.injEq] at h
        cases h.2
        exact Nat.le_succ _
      · rw [if_neg hS] at h
        by_cases hD : (rustTrim line).head? = some 'D'
        · rw [if_pos hD] at h
          cases he : parse_exit (line :: rest) with
          | ok pr =>
            rw [he] at h
            have hlt := parse_exit_rest_lt _ _ _ he
            have := ih _ _ _ _ _ h
            simp only [List.length_cons] at hlt ⊢
            omega
          | error e => rw [he] at h; simp at h
        · rw [if_neg hD] at h
          by_cases hE : rustTrim line = ['E']
          · rw [if_pos hE] at h
            cases he : parse_extra_desc (line :: rest) with
            | ok pr =>
              rw [he] at h
              have hlt := parse_extra_desc_rest_lt _ _ _ he
              have := ih _ _ _ _ _ h
              simp only [List.length_cons] at hlt ⊢
              omega
            | error e => rw [he] at h; simp at h
          · rw [if_neg hE] at h
            have := ih _ _ _ _ _ h
            simp only [List.length_cons]
            omega

theorem parse_room_tail_isSome :
    ∀ (fuel : Nat) (ls : List Str) (exits : List AreaExit) (extras : List ExtraDescription),
      ls.length < fuel → (parse_room_tail fuel ls exits extras).isSome := by
  intro fuel
  induction fuel with
  | zero => intro ls _ _ h; omega
  | succ n ih =>
    intro ls exits extras hlen
    match ls with
    | [] => simp [parse_room_tail]
    | line :: rest =>
      simp only [parse_room_tail]
      by_cases hS : rustTrim line = ['S']
      · rw [if_pos hS]; simp
      · rw [if_neg hS]
        by_cases hD : (rustTrim line).head? = some 'D'
        · rw [if_pos hD]
          cases he : parse_exit (line :: rest) with
          | ok pr =>
            have hlt := parse_exit_rest_lt _ _ _ he
            apply ih
            simp only [List.length_cons] at hlt hlen
            omega
          | error e => simp
        · rw [if_neg hD]
          by_cases hE : rustTrim line = ['E']
          · rw [if_pos hE]
            cases he : parse_extra_desc (line :: rest) with
            | ok pr =>
              have hlt := parse_extra_desc_rest_lt _ _ _ he
              apply ih
              simp only [List.length_cons] at hlt hlen
              omega
            | error e => simp
          · rw [if_neg hE]
            apply ih
            simp only [List.length_cons] at hlen
            omega

theorem parse_single_room_rest_lt (ls : List Str) (room : AreaRoom) (rest : List Str)
    (h : parse_single_room ls = .ok (room, rest)) : rest.length < ls.length := by
  match ls with
  | [] => simp [parse_single_room] at h
  | vl :: tl =>
    simp only [parse_single_room] at h
    rcases (except_bind_ok _ _ _).mp h with ⟨v, _, h⟩
    rcases (except_bind_ok _ _ _).mp h with ⟨⟨nm, r1⟩, h1, h⟩
    dsimp only at h
    rcases (except_bind_ok _ _ _).mp h with ⟨⟨ds, r2⟩, h2, h⟩
    dsimp only at h
    have hr1 := read_until_tilde_rest_lt _ _ _ h1
    have hr2 := read_until_tilde_rest_lt _ _ _ h2
    match r2, h2, hr2, h with
    | [], h2, hr2, h => dsimp only at h; exact absurd h (by simp)
    | al :: r3, h2, hr2, h =>
      dsimp only at h
      rcases (except_bind_ok _ _ _).mp h with ⟨⟨a, fl, st⟩, _, h⟩
      dsimp only at h
      cases ht : parse_room_tail (r3.length + 1) r3 [] [] with
      | none => rw [ht] at h; exact absurd h (by simp)
      | some res =>
        rw [ht] at h
        cases res with
        | error e => exact absurd h (by simp)
        | ok pr =>
          obtain ⟨⟨exs, eds⟩, r4⟩ := pr
          simp only [Except.ok.injEq, Prod.mk.injEq] at h
          have hle := parse_room_tail_rest_le _ _ _ _ _ _ ht
          rw [← h.2]
          simp only [List.length_cons] at hr2 ⊢
          omega

theorem parse_roomsF_rest_le :
    ∀ (fuel : Nat) (ls : List Str) (rooms acc : List AreaRoom) (rest2 : List Str),
      parse_roomsF fuel ls acc = some (.ok (rooms, rest2)) → rest2.length ≤ ls.length := by
  intro fuel
  induction fuel with
  | zero => intro ls _ _ _ h; simp [parse_roomsF] at h
  | succ n ih =>
    intro ls rooms acc rest2 h
    match ls with
    | [] =>
      simp only [parse_roomsF, Option.some.injEq, Except.ok.injEq, Prod.mk.injEq] at h
      cases h.2
      exact Nat.le_refl _
    | line :: rest =>
      simp only [parse_roomsF] at h
      by_cases hEnd : roomsSectionEnd (rustTrim line) = true
      · rw [if_pos hEnd] at h
        simp only [Option.some.injEq, Except.ok.injEq, Prod.mk.injEq] at h
        cases h.2
        exact Nat.le_refl _
      · rw [if_neg hEnd] at h
        split at h
        · split at h
          · rename_i room rest2x hr
            have hlt := parse_single_room_rest_lt _ _ _ hr
            have := ih _ _ _ _ h
            simp only [List.length_cons] at hlt ⊢
            omega
          · simp at h
        · have := ih _ _ _ _ h
          simp only [List.length_cons]
          omega

theorem parse_roomsF_isSome :
    ∀ (fuel : Nat) (ls : List Str) (acc : List AreaRoom),
      ls.length < fuel → (parse_roomsF fuel ls acc).isSome := by
  intro fuel
  induction fuel with
  | zero => intro ls _ h; omega
  | succ n ih =>
    intro ls acc hlen
    match ls with
    | [] => simp [parse_roomsF]
    | line :: rest =>
      simp only [parse_roomsF]
      by_cases hEnd : roomsSectionEnd (rustTrim line) = true
      · rw [if_pos hEnd]; simp
      · rw [if_neg hEnd]
        simp only [List.length_cons] at hlen
        split
        · split
          · rename_i room rest2x hr
            have hlt := parse_single_room_rest_lt _ _ _ hr
            apply ih
            simp only [List.length_cons] at hlt
            omega
          · simp
        · exact ih _ _ (by omega)

theorem parse_rooms_rest_le (ls : List Str) (rooms : List AreaRoom) (rest : List Str)
    (h : parse_rooms ls = .ok (rooms, rest)) : rest.length ≤ ls.length := by
  unfold parse_rooms at h
  cases hF : parse_roomsF (ls.length + 1) ls [] with
  | none => rw [hF] at h; simp at h
  | some r =>
    rw [hF] at h
    dsimp only at h
    rw [h] at hF
    exact parse_roomsF_rest_le _ _ _ _ _ hF

theorem parse_object_extras_rest_le :
    ∀ (fuel : Nat) (ls : List Str) (acc eds : List ExtraDescription) (rest2 : List Str),
      parse_object_extras fuel ls acc = some (.ok (eds, rest2)) → rest2.length ≤ ls.length := by
  intro fuel
  induction fuel with
  | zero => intro ls _ _ _ h; simp [parse_object_extras] at h
  | succ n ih =>
    intro ls acc eds rest2 h
    match ls with
    | [] =>
      simp only [parse_object_extras, Option.some.injEq, Except.ok.injEq, Prod.mk.injEq] at h
      cases h.2
      exact Nat.le_refl _
    | line :: rest =>
      simp only [parse_object_extras] at h
      by_cases hE : rustTrim line = ['E']
      · rw [if_pos hE] at h
        split at h
        · rename_i d rest2x hd
          have hlt := parse_extra_desc_rest_lt _ _ _ hd
          have := ih _ _ _ _ h
          simp only [List.length_cons] at hlt ⊢
          omega
        · simp at h
      · rw [if_neg hE] at h
        by_cases hH : (rustTrim line).head? = some '#'
        · rw [if_pos hH] at h
          simp only [Option.some.injEq, Except.ok.injEq, Prod.mk.injEq] at h
          cases h.2
          exact Nat.le_refl _
        · rw [if_neg hH] at h
          have := ih _ _ _ _ h
          simp only [List.length_cons]
          omega

theorem parse_object_extras_isSome :
    ∀ (fuel : Nat) (ls : List Str) (acc : List ExtraDescription),
      ls.length < fuel → (parse_object_extras fuel ls acc).isSome := by
  intro fuel
  induction fuel with
  | zero => intro ls _ h; omega
  | succ n ih =>
    intro ls acc hlen
    match ls with
    | [] => simp [parse_object_extras]
    | line :: rest =>
      simp only [List.length_cons] at hlen
      simp only [parse_object_extras]
      by_cases hE : rustTrim line = ['E']
      · rw [if_pos hE]
        split
        · rename_i d rest2x hd
          have hlt := parse_extra_desc_rest_lt _ _ _ hd
          apply ih
          simp only [List.length_cons] at hlt
          omega
        · simp
      · rw [if_neg hE]
        by_cases hH : (rustTrim line).head? = some '#'
        · rw [if_pos hH]; simp
        · rw [if_neg hH]
          exact ih _ _ (by omega)

theorem parse_single_object_rest_lt (ls : List Str) (obj : AreaObject) (rest : List Str)
    (h : parse_single_object ls = .ok (obj, rest)) : rest.length < ls.length := by
  match ls with
  | [] => simp [parse_single_object] at h
  | vl :: tl =>
    simp only [parse_single_object] at h
    rcases (except_bind_ok _ _ _).mp h with ⟨v, _, h⟩
    rcases (except_bind_ok _ _ _).mp h with ⟨⟨kw, r1⟩, h1, h⟩
    dsimp only at h
    rcases (except_bind_ok _ _ _).mp h with ⟨⟨sd, r2⟩, h2, h⟩
    dsimp only at h
    rcases (except_bind_ok _ _ _).mp h with ⟨⟨ld, r3⟩, h3, h⟩
    dsimp only at h
    rcases (except_bind_ok _ _ _).mp h with ⟨⟨mat, r4⟩, h4, h⟩
    dsimp only at h
    have hr1 := read_until_tilde_rest_lt _ _ _ h1
    have hr2 := read_until_tilde_rest_lt _ _ _ h2
    have hr3 := read_until_tilde_rest_lt _ _ _ h3
    have hr4 := read_until_tilde_rest_lt _ _ _ h4
    match r4, h4, hr4, h with
    | [], h4, hr4, h => dsimp only at h; exact absurd h (by simp)
    | tln :: r5, h4, hr4, h =>
      dsimp only at h
      rcases (except_bind_ok _ _ _).mp h with ⟨⟨it, ef, wf⟩, _, h⟩
      dsimp only at h
      match r5, h with
      | [], h => exact absurd h (by simp)
      | vln :: r6, h =>
        dsimp only at h
        rcases (except_bind_ok _ _ _).mp h with ⟨⟨v0, v1, v2, v3, v4⟩, _, h⟩
        dsimp only at h
        match r6, h with
        | [], h => exact absurd h (by simp)
        | wln :: r7, h =>
          dsimp only at h
          rcases (except_bind_ok _ _ _).mp h with ⟨⟨wt, ct, lv, cd⟩, _, h⟩
          dsimp only at h
          cases ht : parse_object_extras (r7.length + 1) r7 [] with
          | none => rw [ht] at h; exact absurd h (by simp)
          | some res =>
            rw [ht] at h
            cases res with
            | error e => exact absurd h (by simp)
            | ok pr =>
              obtain ⟨eds, r8⟩ := pr
              simp only [Except.ok.injEq, Prod.mk.injEq] at h
              have hle := parse_object_extras_rest_le _ _ _ _ _ ht
              rw [← h.2]
              simp only [List.length_cons] at hr4 ⊢
              omega

theorem parse_objectsF_rest_le :
    ∀ (fuel : Nat) (ls : List Str) (objs acc : List AreaObject) (rest2 : List Str),
      parse_objectsF fuel ls acc = some (.ok (objs, rest2)) → rest2.length ≤ ls.length := by
  intro fuel
  induction fuel with
  | zero => intro ls _ _ _ h; simp [parse_objectsF] at h
  | succ n ih =>
    intro ls objs acc rest2 h
    match ls with
    | [] =>
      simp only [parse_objectsF, Option.some.injEq, Except.ok.injEq, Prod.mk.injEq] at h
      cases h.2
      exact Nat.le_refl _
    | line :: rest =>
      simp only [parse_objectsF] at h
      by_cases hEnd : objectsSectionEnd (rustTrim line) = true
      · rw [if_pos hEnd] at h
        simp only [Option.some.injEq, Except.ok.injEq, Prod.mk.injEq] at h
        cases h.2
        exact Nat.le_refl _
      · rw [if_neg hEnd] at h
        split at h
        · split at h
          · rename_i obj rest2x hr
            have hlt := parse_single_object_rest_lt _ _ _ hr
            have := ih _ _ _ _ h
            simp only [List.length_cons] at hlt ⊢
            omega
          · simp at h
        · have := ih _ _ _ _ h
          simp only [List.length_cons]
          omega

theorem parse_objectsF_isSome :
    ∀ (fuel : Nat) (ls : List Str) (acc : List AreaObject),
      ls.length < fuel → (parse_objectsF fuel ls acc).isSome := by
  intro fuel
  induction fuel with
  | zero => intro ls _ h; omega
  | succ n ih =>
    intro ls acc hlen
    match ls with
    | [] => simp [parse_objectsF]
    | line :: rest =>
      simp only [List.length_cons] at hlen
      simp only [parse_objectsF]
      by_cases hEnd : objectsSectionEnd (rustTrim line) = true
      · rw [if_pos hEnd]; simp
      · rw [if_neg hEnd]
        split
        · split
          · rename_i obj rest2x hr
            have hlt := parse_single_object_rest_lt _ _ _ hr
            apply ih
            simp only [List.length_cons] at hlt
            omega
          · simp
        · exact ih _ _ (by omega)

theorem parse_objects_rest_le (ls : List Str) (objs : List AreaObject) (rest : List Str)
    (h : parse_objects ls = .ok (objs, rest)) : rest.length ≤ ls.length := by
  unfold parse_objects at h
  cases hF : parse_objectsF (ls.length + 1) ls [] with
  | none => rw [hF] at h; simp at h
  | some r =>
    rw [hF] at h
    dsimp only at h
    rw [h] at hF
    exact parse_objectsF_rest_le _ _ _ _ _ hF

theorem parse_resetsF_rest_le :
    ∀ (fuel : Nat) (ls : List Str) (rs acc : List Reset) (rest2 : List Str),
      parse_resetsF fuel ls acc = some (.ok (rs, rest2)) → rest2.length ≤ ls.length := by
  intro fuel
  induction fuel with
  | zero => intro ls _ _ _ h; simp [parse_resetsF] at h
  | succ n ih =>
    intro ls rs acc rest2 h
    match ls with
    | [] =>
      simp only [parse_resetsF, Option.some.injEq, Except.ok.injEq, Prod.mk.injEq] at h
      cases h.2
      exact Nat.le_refl _
    | line :: rest =>
      simp only [parse_resetsF] at h
      by_cases hEnd : resetsSectionEnd (rustTrim line) = true
      · rw [if_pos hEnd] at h
        simp only [Option.some.injEq, Except.ok.injEq, Prod.mk.injEq] at h
        cases h.2
        exact Nat.le_refl _
      · rw [if_neg hEnd] at h
        by_cases hSkip : (decide ((rustTrim line).head? = some '*') || List.isEmpty (rustTrim line)) = true
        · rw [if_pos hSkip] at h
          have := ih _ _ _ _ h
          simp only [List.length_cons]
          omega
        · rw [if_neg hSkip] at h
          split at h
          · have := ih _ _ _ _ h
            simp only [List.length_cons]
            omega
          · have := ih _ _ _ _ h
            simp only [List.length_cons]
            omega
          · simp at h

theorem parse_resetsF_isSome :
    ∀ (fuel : Nat) (ls : List Str) (acc : List Reset),
      ls.length < fuel → (parse_resetsF fuel ls acc).isSome := by
  intro fuel
  induction fuel with
  | zero => intro ls _ h; omega
  | succ n ih =>
    intro ls acc hlen
    match ls with
    | [] => simp [parse_resetsF]
    | line :: rest =>
      simp only [List.length_cons] at hlen
      simp only [parse_resetsF]
      by_cases hEnd : resetsSectionEnd (rustTrim line) = true
      · rw [if_pos hEnd]; simp
      · rw [if_neg hEnd]
        by_cases hSkip : (decide ((rustTrim line).head? = some '*') || List.isEmpty (rustTrim line)) = true
        · rw [if_pos hSkip]
          exact ih _ _ (by omega)
        · rw [if_neg hSkip]
          split
          · exact ih _ _ (by omega)
          · exact ih _ _ (by omega)
          · simp

theorem parse_resets_rest_le (ls : List Str) (rs : List Reset) (rest : List Str)
    (h : parse_resets ls = .ok (rs, rest)) : rest.length ≤ ls.length := by
  unfold parse_resets at h
  cases hF : parse_resetsF (ls.length + 1) ls [] with
  | none => rw [hF] at h; simp at h
  | some r =>
    rw [hF] at h
    dsimp only at h
    rw [h] at hF
    exact parse_resetsF_rest_le _ _ _ _ _ hF

theorem parse_area_header_rest_lt (ls : List Str) (hdr : AreaHeader) (rest : List Str)
    (h : parse_area_header ls = .ok (hdr, rest)) : rest.length < ls.length := by
  simp only [parse_area_header] at h
  rcases (except_bind_ok _ _ _).mp h with ⟨⟨fn, r1⟩, h1, h⟩
  dsimp only at h
  rcases (except_bind_ok _ _ _).mp h with ⟨⟨nm, r2⟩, h2, h⟩
  dsimp only at h
  rcases (except_bind_ok _ _ _).mp h with ⟨⟨cr, r3⟩, h3, h⟩
  dsimp only at h
  have hr1 := read_until_tilde_rest_lt _ _ _ h1
  have hr2 := read_until_tilde_rest_lt _ _ _ h2
  have hr3 := read_until_tilde_rest_lt _ _ _ h3
  match r3, h3, hr3, h with
  | [], h3, hr3, h => dsimp only at h; exact absurd h (by simp)
  | vl :: r4, h3, hr3, h =>
    dsimp only at h
    by_cases hlen : (splitWs vl).length < 2
    · rw [if_pos hlen] at h; exact absurd h (by simp)
    · rw [if_neg hlen] at h
      rcases (except_bind_ok _ _ _).mp h with ⟨_, _, h⟩
      rcases (except_bind_ok _ _ _).mp h with ⟨_, _, h⟩
      simp only [Except.ok.injEq, Prod.mk.injEq] at h
      rw [← h.2]
      simp only [List.length_cons] at hr3
      omega

theorem parse_rooms_eq_of_loop (ls : List Str) (r : Except ParseError (List AreaRoom × List Str))
    (h : parse_roomsF (ls.length + 1) ls [] = some r) : parse_rooms ls = r := by
  unfold parse_rooms
  rw [h]

theorem parse_objects_eq_of_loop (ls : List Str) (r : Except ParseError (List AreaObject × List Str))
    (h : parse_objectsF (ls.length + 1) ls [] = some r) : parse_objects ls = r := by
  unfold parse_objects
  rw [h]

theorem parse_resets_eq_of_loop (ls : List Str) (r : Except ParseError (List Reset × List Str))
    (h : parse_resetsF (ls.length + 1) ls [] = some r) : parse_resets ls = r := by
  unfold parse_resets
  rw [h]

theorem parse_area_fileF_isSome :
    ∀ (fuel : Nat) (ls : List Str) (area : AreaFile),
      ls.length < fuel → (parse_area_fileF fuel ls area).isSome := by
  intro fuel
  induction fuel with
  | zero => intro ls _ h; omega
  | succ n ih =>
    intro ls area hlen
    match ls with
    | [] => simp [parse_area_fileF]
    | line :: rest =>
      simp only [List.length_cons] at hlen
      simp only [parse_area_fileF]
      by_cases hA : rustTrim line = str "#AREA"
      · rw [if_pos hA]
        split
        · rename_i hdr rest2 hh
          have := parse_area_header_rest_lt _ _ _ hh
          exact ih _ _ (by omega)
        · simp
      · rw [if_neg hA]
        by_cases hR : rustTrim line = str "#ROOMS"
        · rw [if_pos hR]
          split
          · rename_i rooms rest2 hh
            have := parse_rooms_rest_le _ _ _ hh
            exact ih _ _ (by omega)
          · simp
        · rw [if_neg hR]
          by_cases hO : rustTrim line = str "#OBJECTS"
          · rw [if_pos hO]
            split
            · rename_i objs rest2 hh
              have := parse_objects_rest_le _ _ _ hh
              exact ih _ _ (by omega)
            · simp
          · rw [if_neg hO]
            by_cases hS : rustTrim line = str "#RESETS"
            · rw [if_pos hS]
              split
              · rename_i rs rest2 hh
                have := parse_resets_rest_le _ _ _ hh
                exact ih _ _ (by omega)
              · simp
            · rw [if_neg hS]
              by_cases hD : rustTrim line = str "#$"
              · rw [if_pos hD]; simp
              · rw [if_neg hD]
                exact ih _ _ (by omega)

theorem parse_area_fileF_irrel :
    ∀ (f1 f2 : Nat) (ls : List Str) (area : AreaFile),
      ls.length < f1 → ls.length < f2 →
      parse_area_fileF f1 ls area = parse_area_fileF f2 ls area := by
  intro f1
  induction f1 with
  | zero => intro f2 ls area h1 _; omega
  | succ n ih =>
    intro f2 ls area h1 h2
    match f2, h2 with
    | m + 1, h2 =>
      match ls with
      | [] => simp [parse_area_fileF]
      | line :: rest =>
        simp only [List.length_cons] at h1 h2
        simp only [parse_area_fileF]
        by_cases hA : rustTrim line = str "#AREA"
        · simp only [if_pos hA]
          cases hh : parse_area_header rest with
          | ok pr =>
            obtain ⟨hdr, r2⟩ := pr
            have := parse_area_header_rest_lt _ _ _ hh
            simp only [hh]
            exact ih (m + 1 - 1) r2 _ (by omega) (by omega)
          | error e => simp [hh]
        · simp only [if_neg hA]
          by_cases hR : rustTrim line = str "#ROOMS"
          · simp only [if_pos hR]
            cases hh : parse_rooms rest with
            | ok pr =>
              obtain ⟨rooms, r2⟩ := pr
              have := parse_rooms_rest_le _ _ _ hh
              simp only [hh]
              exact ih (m + 1 - 1) r2 _ (by omega) (by omega)
            | error e => simp [hh]
          · simp only [if_neg hR]
            by_cases hO : rustTrim line = str "#OBJECTS"
            · simp only [if_pos hO]
              cases hh : parse_objects rest with
              | ok pr =>
                obtain ⟨objs, r2⟩ := pr
                have := parse_objects_rest_le _ _ _ hh
                simp only [hh]
                exact ih (m + 1 - 1) r2 _ (by omega) (by omega)
              | error e => simp [hh]
            · simp only [if_neg hO]
              by_cases hS : rustTrim line = str "#RESETS"
              · simp only [if_pos hS]
                cases hh : parse_resets rest with
                | ok pr =>
                  obtain ⟨rs, r2⟩ := pr
                  have := parse_resets_rest_le _ _ _ hh
                  simp only [hh]
                  exact ih (m + 1 - 1) r2 _ (by omega) (by omega)
                | error e => simp [hh]
              · simp only [if_neg hS]
                by_cases hD : rustTrim line = str "#$"
                · simp only [if_pos hD]
                · simp only [if_neg hD]
                  exact ih (m + 1 - 1) rest _ (by omega) (by omega)

theorem parse_area_file_eq_of_loop (ls : List Str) (r : Except ParseError AreaFile)
    (h : parse_area_fileF (ls.length + 1) ls AreaFile.default = some r) :
    parse_area_file ls = r := by
  unfold parse_area_file
  rw [h]

/-! ### Claim theorems -/

/-- Helper: the dispatcher skips a line that is no recognized marker. -/
theorem parse_area_fileF_skip (fuel : Nat) (line : Str) (rest : List Str) (area : AreaFile)
    (h1 : rustTrim line ≠ str "#AREA") (h2 : rustTrim line ≠ str "#ROOMS")
    (h3 : rustTrim line ≠ str "#OBJECTS") (h4 : rustTrim line ≠ str "#RESETS") :
    parse_area_fileF (fuel + 1) (line :: rest) area =
      if rustTrim line = str "#$" then some (.ok area) else parse_area_fileF fuel rest area := by
  simp only [parse_area_fileF, if_neg h1, if_neg h2, if_neg h3, if_neg h4]

/-- C6: the single room block `"#3001\nTown Square~\nA busy square.~\n0 CDS 1\nS\n"`
inside a `#ROOMS` section parses to exactly one `AreaRoom` with `vnum = 3001`,
`sector_type = City` (code 1), and a room-flags bit-set containing
`NO_RECALL`, `DARK` and `SAFE` (decoded from the letters C, D, S). -/
theorem parse_room_block_scenario :
    parse_area_file (List.map str ["#ROOMS", "#3001", "Town Square~", "A busy square.~",
        "0 CDS 1", "S"]) =
      .ok ⟨⟨[], [], [], 0, 0⟩,
           [⟨3001, str "Town Square", str "A busy square.", 0,
             RoomFlags.from_str (str "CDS"), .City, [], []⟩], [], []⟩ ∧
    RoomFlags.contains (RoomFlags.from_str (str "CDS")) RoomFlags.NO_RECALL = true ∧
    RoomFlags.contains (RoomFlags.from_str (str "CDS")) RoomFlags.DARK = true ∧
    RoomFlags.contains (RoomFlags.from_str (str "CDS")) RoomFlags.SAFE = true := by
  decide

/-- C8: `parse_area_file` terminates on every finite input.  The dispatcher
loop, run with any fuel exceeding the number of remaining lines, completes
and computes `parse_area_file` (every iteration consumes at least one
line), and every sub-parser loop completes within `lines.length + 1`
iterations. -/
theorem parse_area_file_terminates :
    (∀ (fuel : Nat) (ls : List Str), ls.length < fuel →
      parse_area_fileF fuel ls AreaFile.default = some (parse_area_file ls)) ∧
    (∀ (ls : List Str) (acc : List AreaRoom), (parse_roomsF (ls.length + 1) ls acc).isSome = true) ∧
    (∀ (ls : List Str) (acc : List AreaObject), (parse_objectsF (ls.length + 1) ls acc).isSome = true) ∧
    (∀ (ls : List Str) (acc : List Reset), (parse_resetsF (ls.length + 1) ls acc).isSome = true) ∧
    (∀ (ls : List Str) (exits : List AreaExit) (extras : List ExtraDescription),
      (parse_room_tail (ls.length + 1) ls exits extras).isSome = true) ∧
    (∀ (ls : List Str) (acc : List ExtraDescription),
      (parse_object_extras (ls.length + 1) ls acc).isSome = true) := by
  refine ⟨?_, fun ls acc => parse_roomsF_isSome _ _ _ (Nat.lt_succ_self _),
          fun ls acc => parse_objectsF_isSome _ _ _ (Nat.lt_succ_self _),
          fun ls acc => parse_resetsF_isSome _ _ _ (Nat.lt_succ_self _),
          fun ls ex ed => parse_room_tail_isSome _ _ _ _ (Nat.lt_succ_self _),
          fun ls acc => parse_object_extras_isSome _ _ _ (Nat.lt_succ_self _)⟩
  intro fuel ls hlt
  obtain ⟨r, hr⟩ := Option.isSome_iff_exists.mp
    (parse_area_fileF_isSome (ls.length + 1) ls AreaFile.default (Nat.lt_succ_self _))
  rw [parse_area_file_eq_of_loop ls r hr,
      parse_area_fileF_irrel fuel (ls.length + 1) ls AreaFile.default hlt (Nat.lt_succ_self _), hr]

/-- Witness for C8 at a concrete input and fuel. -/
theorem parse_area_file_terminates_witness :
    parse_area_fileF 3 [str "#$"] AreaFile.default = some (parse_area_file [str "#$"]) :=
  parse_area_file_terminates.1 3 [str "#$"] (by decide)

/-- C9: parsing the empty string — and any input none of whose trimmed
lines is a recognized section marker `#AREA`/`#ROOMS`/`#OBJECTS`/`#RESETS`
— succeeds and returns the default `AreaFile`: empty filename, name and
credits, `min_vnum = max_vnum = 0`, and no rooms (nor objects or
resets). -/
theorem parse_area_file_no_sections :
    parse_area_file_str (str "") = .ok ⟨⟨[], [], [], 0, 0⟩, [], [], []⟩ ∧
    ∀ (ls : List Str),
      (∀ l ∈ ls, rustTrim l ≠ str "#AREA" ∧ rustTrim l ≠ str "#ROOMS" ∧
        rustTrim l ≠ str "#OBJECTS" ∧ rustTrim l ≠ str "#RESETS") →
      parse_area_file ls = .ok ⟨⟨[], [], [], 0, 0⟩, [], [], []⟩ := by
  refine ⟨rfl, ?_⟩
  intro ls h
  induction ls with
  | nil => rfl
  | cons line rest ih =>
    have hl := h line (List.mem_cons_self _ _)
    have hstep : parse_area_file (line :: rest) =
        if rustTrim line = str "#$" then .ok AreaFile.default else parse_area_file rest := by
      unfold parse_area_file
      simp only [List.length_cons]
      rw [parse_area_fileF_skip _ _ _ _ hl.1 hl.2.1 hl.2.2.1 hl.2.2.2]
      by_cases hD : rustTrim line = str "#$"
      · simp [hD]
      · simp only [if_neg hD]
    rw [hstep]
    by_cases hD : rustTrim line = str "#$"
    · rw [if_pos hD]; rfl
    · rw [if_neg hD]
      exact ih (fun l hm => h l (List.mem_cons_of_mem _ hm))

/-- Witness for C9: the empty line list has no marker lines. -/
theorem parse_area_file_no_sections_witness :
    parse_area_file [] = .ok ⟨⟨[], [], [], 0, 0⟩, [], [], []⟩ :=
  parse_area_file_no_sections.2 [] (by simp)

/-- Counterexample to C2 as stated: the first input parses successfully
and contains the tilde-terminated credits field ending at the line `c~`;
deleting that terminator line yields the second input, on which the parse
still SUCCEEDS (the credits field absorbs the following lines up to the
stray tilde line `x~`, and the later `3 4` line supplies the vnum range)
instead of failing with `UnexpectedEof`. -/
theorem truncated_tilde_counterexample :
    parse_area_file (List.map str ["#AREA", "a~", "b~", "c~", "1 2", "x~", "3 4", "#$"]) =
      .ok ⟨⟨str "a", str "b", str "c", 1, 2⟩, [], [], []⟩ ∧
    endsTilde (str "c~") = true ∧
    parse_area_file (List.map str ["#AREA", "a~", "b~", "1 2", "x~", "3 4", "#$"]) =
      .ok ⟨⟨str "a", str "b", str "1 2\nx", 3, 4⟩, [], [], []⟩ := by
  decide

/-- Counterexample to C3 as stated: for the line sequence `[" a", "b~"]`
(only the last line ends in `~`), the tilde-string reader returns
`"a\nb"` — the final whole-string `trim()` removes the first line's
leading space — so splitting on `\n` yields `["a", "b"]`, not the
original sequence with the tilde removed. -/
theorem tilde_roundtrip_counterexample :
    endsTilde (str " a") = false ∧ endsTilde (str "b~") = true ∧
    read_until_tilde [str " a", str "b~"] = .ok (str "a\nb", []) ∧
    splitNl (str "a\nb") ≠ [str " a", str "b"] := by
  decide

/-- C2 (amended): deleting a tilde terminator makes the reader absorb the
following lines; the tilde-string reader fails with `UnexpectedEof`
precisely when no remaining line, trimmed of trailing whitespace, ends in
`~` — in particular when the deleted terminator was the last tilde line of
the input.  Otherwise the read succeeds on later lines and the overall
parse may succeed or fail with a different error. -/
theorem read_until_tilde_eof_iff (ls : List Str) :
    read_until_tilde ls = .error .UnexpectedEof ↔ ∀ l ∈ ls, endsTilde l = false := by
  suffices h : ∀ acc, read_until_tilde_aux acc ls = .error .UnexpectedEof ↔
      ∀ l ∈ ls, endsTilde l = false from h []
  induction ls with
  | nil => intro acc; simp [read_until_tilde_aux]
  | cons line rest ih =>
    intro acc
    simp only [read_until_tilde_aux]
    by_cases he : endsTilde line = true
    · rw [if_pos he]
      simp [he]
    · rw [if_neg he]
      have hfl : endsTilde line = false := by revert he; cases endsTilde line <;> simp
      rw [ih (tildePush acc line)]
      simp [hfl]

/-- Forward evaluation through an `Except` bind with a known result. -/
theorem bind_ok_eq {ε α β : Type _} (e : Except ε α) (a : α) (f : α → Except ε β)
    (h : e = .ok a) : (e >>= f) = f a := by
  rw [h]; rfl

/-- C7: the header parser succeeds even when the first vnum integer is
strictly greater than the second, returning `min_vnum` and `max_vnum`
exactly as read; it does not enforce `min_vnum ≤ max_vnum`. -/
theorem parse_area_header_min_gt_max (ls1 : List Str) (f : Str) (ls2 : List Str) (n : Str)
    (ls3 : List Str) (c : Str) (v : Str) (rest : List Str) (t1 t2 : Str) (ts : List Str)
    (a b : Int)
    (h1 : read_until_tilde ls1 = .ok (f, ls2))
    (h2 : read_until_tilde ls2 = .ok (n, ls3))
    (h3 : read_until_tilde ls3 = .ok (c, v :: rest))
    (hv : splitWs v = t1 :: t2 :: ts)
    (ha : parseI32 t1 = some a) (hb : parseI32 t2 = some b)
    (hgt : b < a) :
    parse_area_header ls1 = .ok (⟨f, n, c, a, b⟩, rest) := by
  simp only [parse_area_header]
  rw [bind_ok_eq _ _ _ h1]
  dsimp only
  rw [bind_ok_eq _ _ _ h2]
  dsimp only
  rw [bind_ok_eq _ _ _ h3]
  dsimp only
  rw [hv]
  simp only [List.length_cons]
  rw [if_neg (by omega)]
  simp only [List.getD_cons_zero, List.getD_cons_succ, pInt, ha, hb]
  rfl

/-- Witness for C7: a header whose vnum line reads `5 2` (min > max). -/
theorem parse_area_header_min_gt_max_witness :
    parse_area_header [str "f~", str "n~", str "c~", str "5 2"] =
      .ok (⟨str "f", str "n", str "c", 5, 2⟩, []) :=
  parse_area_header_min_gt_max
    [str "f~", str "n~", str "c~", str "5 2"] (str "f")
    [str "n~", str "c~", str "5 2"] (str "n")
    [str "c~", str "5 2"] (str "c") (str "5 2") [] (str "5") (str "2") [] 5 2
    (by decide) (by decide) (by decide) (by decide) (by decide) (by decide) (by decide)

/-- C10: a room block whose input ends without a terminating `S` line
parses successfully: the exit/extra-description loop returns the collected
blocks when the input is exhausted (first conjunct, after any number of
complete blocks), and a room whose input ends right after the attributes
line yields the `AreaRoom` with no exits and no extra descriptions rather
than an `UnexpectedEof` failure (second conjunct). -/
theorem parse_single_room_eof_tolerant :
    (∀ (fuel : Nat) (exits : List AreaExit) (extras : List ExtraDescription),
      parse_room_tail (fuel + 1) [] exits extras = some (.ok ((exits, extras), []))) ∧
    (∀ (l0 : Str) (ls1 : List Str) (v : Int) (nm : Str) (ls2 : List Str) (ds al : Str)
      (a : Int) (fl : RoomFlags) (st : SectorType),
      parse_vnum l0 = .ok v →
      read_until_tilde ls1 = .ok (nm, ls2) →
      read_until_tilde ls2 = .ok (ds, [al]) →
      parse_room_attributes al = .ok (a, fl, st) →
      parse_single_room (l0 :: ls1) = .ok (⟨v, nm, ds, a, fl, st, [], []⟩, [])) := by
  constructor
  · intro fuel exits extras; rfl
  · intro l0 ls1 v nm ls2 ds al a fl st hv h1 h2 hattr
    simp only [parse_single_room]
    rw [bind_ok_eq _ _ _ hv]
    rw [bind_ok_eq _ _ _ h1]
    dsimp only
    rw [bind_ok_eq _ _ _ h2]
    dsimp only
    rw [bind_ok_eq _ _ _ hattr]
    rfl

/-- Witness for C10: a room block that ends at the attributes line. -/
theorem parse_single_room_eof_tolerant_witness :
    parse_single_room [str "#3001", str "Town Square~", str "A busy square.~",
        str "0 CDS 1"] =
      .ok (⟨3001, str "Town Square", str "A busy square.", 0,
            RoomFlags.from_str (str "CDS"), .City, [], []⟩, []) :=
  parse_single_room_eof_tolerant.2 (str "#3001")
    [str "Town Square~", str "A busy square.~", str "0 CDS 1"] 3001
    (str "Town Square") [str "A busy square.~", str "0 CDS 1"]
    (str "A busy square.") (str "0 CDS 1") 0 (RoomFlags.from_str (str "CDS")) .City
    (by decide) (by decide) (by decide) (by decide)

theorem parseI32_getD_match (l : List Str) (i : Nat) :
    (parseI32 (l.getD i (str "0"))).getD 0 =
      match l.get? i with
      | some t => (parseI32 t).getD 0
      | none => 0 := by
  cases hg : l.get? i with
  | some t =>
    rw [List.getD_eq_getD_get?, hg]
    rfl
  | none =>
    rw [List.getD_eq_getD_get?, hg]
    rfl

/-- C4: parsing an object values line never returns an error, and each of
`value0`, `value1`, `value3`, `value4` equals the integer value of its
positional token when that token parses as an integer, and `0` when the
token is absent or fails to parse. -/
theorem parse_object_values_line_lenient (line : Str) :
    ∃ v : Int × Int × Str × Int × Int,
      parse_object_values_line line = .ok v ∧
      v.1 = (match (splitWs line).get? 0 with
             | some t => (parseI32 t).getD 0
             | none => 0) ∧
      v.2.1 = (match (splitWs line).get? 1 with
               | some t => (parseI32 t).getD 0
               | none => 0) ∧
      v.2.2.2.1 = (match (splitWs line).get? 3 with
                   | some t => (parseI32 t).getD 0
                   | none => 0) ∧
      v.2.2.2.2 = (match (splitWs line).get? 4 with
                   | some t => (parseI32 t).getD 0
                   | none => 0) := by
  refine ⟨_, rfl, ?_, ?_, ?_, ?_⟩
  · exact parseI32_getD_match (splitWs line) 0
  · exact parseI32_getD_match (splitWs line) 1
  · exact parseI32_getD_match (splitWs line) 3
  · exact parseI32_getD_match (splitWs line) 4

/-- A `pInt` bind never produces `InvalidResetCommand` (its own failure is
the wrapped integer-parse error). -/
theorem bind_pInt_ne_irc {β : Type _} (t : Str) (g : Int → Except ParseError β)
    (hf : ∀ a, g a ≠ .error .InvalidResetCommand) :
    (pInt t >>= g) ≠ .error .InvalidResetCommand := by
  unfold pInt
  cases parseI32 t with
  | some m => simpa using hf m
  | none => simp [Bind.bind, Except.bind]

/-- C5: for a reset line whose first whitespace-separated token (after
stripping any `*` comment) is one of `M O G E P D R`, the reset parser
fails with `InvalidResetCommand` exactly below that command's minimum
token count (6 for M, 5 for O/E/P, 4 for G/D, 3 for R); at or above the
minimum it never raises `InvalidResetCommand` (it may still fail with the
wrapped integer-parse error). -/
theorem parse_single_reset_min_tokens (line : Str) (cmdc : Char) (tl : List Str)
    (hsplit : splitWs (reset_stripped line) = [cmdc] :: tl)
    (hc : cmdc ∈ ['M', 'O', 'G', 'E', 'P', 'D', 'R']) :
    ((splitWs (reset_stripped line)).length < reset_min_count cmdc →
      parse_single_reset line = .error .InvalidResetCommand) ∧
    (reset_min_count cmdc ≤ (splitWs (reset_stripped line)).length →
      parse_single_reset line ≠ .error .InvalidResetCommand) := by
  fin_cases hc
  case _ =>
    refine ⟨fun hlt => ?_, fun hge => ?_⟩
    · have hltn : (splitWs (reset_stripped line)).length < 6 := hlt
      rw [hsplit] at hltn
      simp only [parse_single_reset, hsplit]
      rw [if_pos trivial, if_pos hltn]
    · have hgen : 6 ≤ (splitWs (reset_stripped line)).length := hge
      rw [hsplit] at hgen
      simp only [parse_single_reset, hsplit]
      rw [if_pos trivial, if_neg (Nat.not_lt.mpr hgen)]
      apply bind_pInt_ne_irc; intro a1
      apply bind_pInt_ne_irc; intro a2
      apply bind_pInt_ne_irc; intro a3
      apply bind_pInt_ne_irc; intro a4
      apply bind_pInt_ne_irc; intro a5
      simp
  case _ =>
    refine ⟨fun hlt => ?_, fun hge => ?_⟩
    · have hltn : (splitWs (reset_stripped line)).length < 5 := hlt
      rw [hsplit] at hltn
      simp only [parse_single_reset, hsplit]
      rw [if_neg (by decide), if_pos trivial, if_pos hltn]
    · have hgen : 5 ≤ (splitWs (reset_stripped line)).length := hge
      rw [hsplit] at hgen
      simp only [parse_single_reset, hsplit]
      rw [if_neg (by decide), if_pos trivial, if_neg (Nat.not_lt.mpr hgen)]
      apply bind_pInt_ne_irc; intro a1
      apply bind_pInt_ne_irc; intro a2
      apply bind_pInt_ne_irc; intro a3
      apply bind_pInt_ne_irc; intro a4
      simp
  case _ =>
    refine ⟨fun hlt => ?_, fun hge => ?_⟩
    · have hltn : (splitWs (reset_stripped line)).length < 4 := hlt
      rw [hsplit] at hltn
      simp only [parse_single_reset, hsplit]
      rw [if_neg (by decide), if_neg (by decide), if_pos trivial, if_pos hltn]
    · have hgen : 4 ≤ (splitWs (reset_stripped line)).length := hge
      rw [hsplit] at hgen
      simp only [parse_single_reset, hsplit]
      rw [if_neg (by decide), if_neg (by decide), if_pos trivial, if_neg (Nat.not_lt.mpr hgen)]
      apply bind_pInt_ne_irc; intro a1
      apply bind_pInt_ne_irc; intro a2
      apply bind_pInt_ne_irc; intro a3
      simp
  case _ =>
    refine ⟨fun hlt => ?_, fun hge => ?_⟩
    · have hltn : (splitWs (reset_stripped line)).length < 5 := hlt
      rw [hsplit] at hltn
      simp only [parse_single_reset, hsplit]
      rw [if_neg (by decide), if_neg (by decide), if_neg (by decide), if_pos trivial, if_pos hltn]
    · have hgen : 5 ≤ (splitWs (reset_stripped line)).length := hge
      rw [hsplit] at hgen
      simp only [parse_single_reset, hsplit]
      rw [if_neg (by decide), if_neg (by decide), if_neg (by decide), if_pos trivial, if_neg (Nat.not_lt.mpr hgen)]
      apply bind_pInt_ne_irc; intro a1
      apply bind_pInt_ne_irc; intro a2
      apply bind_pInt_ne_irc; intro a3
      apply bind_pInt_ne_irc; intro a4
      simp
  case _ =>
    refine ⟨fun hlt => ?_, fun hge => ?_⟩
    · have hltn : (splitWs (reset_stripped line)).length < 5 := hlt
      rw [hsplit] at hltn
      simp only [parse_single_reset, hsplit]
      rw [if_neg (by decide), if_neg (by decide), if_neg (by decide), if_neg (by decide), if_pos trivial, if_pos hltn]
    · have hgen : 5 ≤ (splitWs (reset_stripped line)).length := hge
      rw [hsplit] at hgen
      simp only [parse_single_reset, hsplit]
      rw [if_neg (by decide), if_neg (by decide), if_neg (by decide), if_neg (by decide), if_pos trivial, if_neg (Nat.not_lt.mpr hgen)]
      apply bind_pInt_ne_irc; intro a1
      apply bind_pInt_ne_irc; intro a2
      apply bind_pInt_ne_irc; intro a3
      apply bind_pInt_ne_irc; intro a4
      simp
  case _ =>
    refine ⟨fun hlt => ?_, fun hge => ?_⟩
    · have hltn : (splitWs (reset_stripped line)).length < 4 := hlt
      rw [hsplit] at hltn
      simp only [parse_single_reset, hsplit]
      rw [if_neg (by decide), if_neg (by decide), if_neg (by decide), if_neg (by decide), if_neg (by decide), if_pos trivial, if_pos hltn]
    · have hgen : 4 ≤ (splitWs (reset_stripped line)).length := hge
      rw [hsplit] at hgen
      simp only [parse_single_reset, hsplit]
      rw [if_neg (by decide), if_neg (by decide), if_neg (by decide), if_neg (by decide), if_neg (by decide), if_pos trivial, if_neg (Nat.not_lt.mpr hgen)]
      apply bind_pInt_ne_irc; intro a1
      apply bind_pInt_ne_irc; intro a2
      apply bind_pInt_ne_irc; intro a3
      simp
  case _ =>
    refine ⟨fun hlt => ?_, fun hge => ?_⟩
    · have hltn : (splitWs (reset_stripped line)).length < 3 := hlt
      rw [hsplit] at hltn
      simp only [parse_single_reset, hsplit]
      rw [if_neg (by decide), if_neg (by decide), if_neg (by decide), if_neg (by decide), if_neg (by decide), if_neg (by decide), if_pos trivial, if_pos hltn]
    · have hgen : 3 ≤ (splitWs (reset_stripped line)).length := hge
      rw [hsplit] at hgen
      simp only [parse_single_reset, hsplit]
      rw [if_neg (by decide), if_neg (by decide), if_neg (by decide), if_neg (by decide), if_neg (by decide), if_neg (by decide), if_pos trivial, if_neg (Nat.not_lt.mpr hgen)]
      apply bind_pInt_ne_irc; intro a1
      apply bind_pInt_ne_irc; intro a2
      simp

/-- Witness for C5: `M 0 3050 1 3001 1` has six tokens, so the reset
parser does not raise `InvalidResetCommand` on it. -/
theorem parse_single_reset_min_tokens_witness :
    parse_single_reset (str "M 0 3050 1 3001 1") ≠ .error .InvalidResetCommand :=
  (parse_single_reset_min_tokens (str "M 0 3050 1 3001 1") 'M'
    [str "0", str "3050", str "1", str "3001", str "1"]
    (by decide) (by decide)).2 (by decide)

/-- C1: a successful `parse_area_file` run retains all four parsed
components in the returned `AreaFile`: the header parsed from `#AREA`,
the rooms from `#ROOMS`, and — alongside them — the objects from
`#OBJECTS` and the resets from `#RESETS`, each in parse order. -/
theorem parse_area_file_retains (ls1 : List Str) (hdr : AreaHeader) (ls2 : List Str)
    (rooms : List AreaRoom) (ls3 : List Str) (objs : List AreaObject) (ls4 : List Str)
    (resets : List Reset)
    (h1 : parse_area_header ls1 = .ok (hdr, str "#ROOMS" :: ls2))
    (h2 : parse_rooms ls2 = .ok (rooms, str "#OBJECTS" :: ls3))
    (h3 : parse_objects ls3 = .ok (objs, str "#RESETS" :: ls4))
    (h4 : parse_resets ls4 = .ok (resets, [str "#$"])) :
    parse_area_file (str "#AREA" :: ls1) = .ok ⟨hdr, rooms, objs, resets⟩ := by
  have c1 := parse_area_header_rest_lt _ _ _ h1
  have c2 := parse_rooms_rest_le _ _ _ h2
  have c3 := parse_objects_rest_le _ _ _ h3
  have c4 := parse_resets_rest_le _ _ _ h4
  simp only [List.length_cons] at c1 c2 c3 c4
  apply parse_area_file_eq_of_loop
  simp only [List.length_cons]
  simp only [parse_area_fileF]
  rw [if_pos (by decide : rustTrim (str "#AREA") = str "#AREA")]
  simp only [h1]
  simp only [parse_area_fileF]
  rw [if_neg (by decide), if_pos (by decide : rustTrim (str "#ROOMS") = str "#ROOMS")]
  simp only [h2]
  rw [parse_area_fileF_irrel ls1.length (ls3.length + 1 + 1) (str "#OBJECTS" :: ls3) _
    (by simp only [List.length_cons]; omega) (by simp only [List.length_cons]; omega)]
  simp only [parse_area_fileF]
  rw [if_neg (by decide), if_neg (by decide),
    if_pos (by decide : rustTrim (str "#OBJECTS") = str "#OBJECTS")]
  simp only [h3]
  simp only [parse_area_fileF]
  rw [if_neg (by decide), if_neg (by decide), if_neg (by decide),
    if_pos (by decide : rustTrim (str "#RESETS") = str "#RESETS")]
  simp only [h4]
  rw [parse_area_fileF_irrel ls3.length (1 + 1) [str "#$"] _
    (by simp only [List.length_cons]; omega) (by simp)]
  simp only [parse_area_fileF]
  rw [if_neg (by decide), if_neg (by decide), if_neg (by decide), if_neg (by decide),
    if_pos (by decide : rustTrim (str "#$") = str "#$")]

/-- Witness for C1: a minimal area file exercising all four sections. -/
theorem parse_area_file_retains_witness :
    parse_area_file (List.map str ["#AREA", "f~", "n~", "c~", "1 2", "#ROOMS",
        "#OBJECTS", "#RESETS", "#$"]) =
      .ok ⟨⟨str "f", str "n", str "c", 1, 2⟩, [], [], []⟩ :=
  parse_area_file_retains
    [str "f~", str "n~", str "c~", str "1 2", str "#ROOMS", str "#OBJECTS",
      str "#RESETS", str "#$"] ⟨str "f", str "n", str "c", 1, 2⟩
    [str "#OBJECTS", str "#RESETS", str "#$"] []
    [str "#RESETS", str "#$"] [] [str "#$"] []
    (by decide) (by decide) (by decide) (by decide)

/-! ### The tilde-string round trip (C3) -/

theorem read_aux_run (mid : List Str) (lk : Str) (hmid : ∀ l ∈ mid, endsTilde l = false)
    (hlk : endsTilde lk = true) :
    ∀ acc, read_until_tilde_aux acc (mid ++ [lk]) =
      .ok (rustTrim (if stripTildes (rtrim lk) ≠ [] then
          tildePush (mid.foldl tildePush acc) (stripTildes (rtrim lk))
        else mid.foldl tildePush acc), []) := by
  induction mid with
  | nil =>
    intro acc
    simp only [List.nil_append, read_until_tilde_aux, if_pos hlk, List.foldl_nil]
  | cons m ms ih =>
    intro acc
    have hm : endsTilde m = false := hmid m (List.mem_cons_self _ _)
    simp only [List.cons_append, read_until_tilde_aux, List.append_eq]
    rw [if_neg (by simp [hm])]
    rw [ih (fun l hl => hmid l (List.mem_cons_of_mem _ hl)) (tildePush acc m)]
    simp only [List.foldl_cons]

theorem tildePush_ne_nil (acc l : Str) (hacc : acc ≠ []) : tildePush acc l ≠ [] := by
  simp [tildePush, hacc]

theorem foldl_tildePush (xs : List Str) :
    ∀ acc, acc ≠ [] →
      xs.foldl tildePush acc = acc ++ (xs.map (fun l => '\n' :: l)).flatten := by
  induction xs with
  | nil => intro acc _; simp
  | cons x xsTail ih =>
    intro acc hacc
    simp only [List.foldl_cons, List.map_cons, List.flatten_cons]
    rw [ih (tildePush acc x) (tildePush_ne_nil _ _ hacc)]
    simp only [tildePush, if_pos hacc]
    simp [List.append_assoc]

theorem splitNl_no_nl (a : Str) (h : '\n' ∉ a) : splitNl a = [a] := by
  induction a with
  | nil => rfl
  | cons c cs ih =>
    have hc : c ≠ '\n' := fun hh => h (hh ▸ List.mem_cons_self _ _)
    have hcs : '\n' ∉ cs := fun hh => h (List.mem_cons_of_mem _ hh)
    simp only [splitNl, splitP] at ih ⊢
    rw [if_neg (by simp [hc]), ih hcs]

theorem splitNl_append_cons (a : Str) (b : Str) (h : '\n' ∉ a) :
    splitNl (a ++ '\n' :: b) = a :: splitNl b := by
  induction a with
  | nil =>
    simp only [List.nil_append, splitNl, splitP]
    rw [if_pos (by simp)]
  | cons c cs ih =>
    have hc : c ≠ '\n' := fun hh => h (hh ▸ List.mem_cons_self _ _)
    have hcs : '\n' ∉ cs := fun hh => h (List.mem_cons_of_mem _ hh)
    simp only [List.cons_append, splitNl, splitP, List.append_eq] at ih ⊢
    rw [if_neg (by simp [hc]), ih hcs]

theorem splitNl_join (segs : List Str) (hsegs : ∀ s ∈ segs, '\n' ∉ s) :
    ∀ a, '\n' ∉ a →
      splitNl (a ++ (segs.map (fun l => '\n' :: l)).flatten) = a :: segs := by
  induction segs with
  | nil => intro a ha; simp [splitNl_no_nl a ha]
  | cons s ss ih =>
    intro a ha
    simp only [List.map_cons, List.flatten_cons]
    rw [show a ++ ('\n' :: s ++ (ss.map (fun l => '\n' :: l)).flatten) =
        a ++ '\n' :: (s ++ (ss.map (fun l => '\n' :: l)).flatten) from by simp]
    rw [splitNl_append_cons _ _ ha]
    rw [ih (fun x hx => hsegs x (List.mem_cons_of_mem _ hx)) s
      (hsegs s (List.mem_cons_self _ _))]

theorem dropWhile_append_of_ne (p : Char → Bool) (a b : Str) (ha : a ≠ [])
    (hda : a.dropWhile p = a) : (a ++ b).dropWhile p = a ++ b := by
  match a with
  | c :: t =>
    have hc : p c = false := by
      have := List.dropWhile_eq_self_iff.mp hda (by simp)
      simpa using this
    simp [List.dropWhile_cons, hc]

theorem ltrim_append_of (a rest : Str) (ha : a ≠ []) (hla : ltrim a = a) :
    ltrim (a ++ rest) = a ++ rest :=
  dropWhile_append_of_ne isWs a rest ha hla

theorem rtrim_append_of (x w : Str) (hw : w ≠ []) (hrw : rtrim w = w) :
    rtrim (x ++ w) = x ++ w := by
  have hrev : w.reverse.dropWhile isWs = w.reverse := by
    have := congrArg List.reverse hrw
    simpa [rtrim] using this
  have hwne : w.reverse ≠ [] := by simpa using hw
  unfold rtrim
  rw [List.reverse_append, dropWhile_append_of_ne _ _ _ hwne hrev,
    List.reverse_append, List.reverse_reverse, List.reverse_reverse]

theorem mem_of_mem_stripTildes_rtrim {c : Char} (s : Str)
    (h : c ∈ stripTildes (rtrim s)) : c ∈ s := by
  unfold stripTildes at h
  rw [List.mem_reverse] at h
  have h2 := (List.dropWhile_sublist (l := (rtrim s).reverse) (fun c => c = '~')).subset h
  rw [List.mem_reverse] at h2
  unfold rtrim at h2
  rw [List.mem_reverse] at h2
  have h3 := (List.dropWhile_sublist (l := s.reverse) isWs).subset h2
  rwa [List.mem_reverse] at h3

/-- C3 (amended): the tilde-string round trip holds under the conditions
the reader's construction forces.  For physical lines `L1..Lk` = `mid ++
[lk]` where only `lk`'s trailing-whitespace-trimmed form ends in `~` and
no line contains an embedded newline, let `w` be `lk` with trailing
whitespace and all trailing tildes removed.  Provided `w` is nonempty
with no trailing whitespace, and the first resulting segment is nonempty
with no leading whitespace (otherwise the whole-string `trim()` and the
empty-line-skipping of the accumulator alter the segments, as the
counterexample shows), the reader succeeds and splitting its result on
`'\n'` reproduces `mid ++ [w]` — the original lines with the terminator
line's trailing whitespace and tildes removed. -/
theorem read_until_tilde_roundtrip (mid : List Str) (lk : Str) (w : Str)
    (hwdef : w = stripTildes (rtrim lk))
    (hmid : ∀ l ∈ mid, endsTilde l = false ∧ '\n' ∉ l)
    (hlk : endsTilde lk = true)
    (hlnl : '\n' ∉ lk)
    (hw : w ≠ [])
    (hwr : rtrim w = w)
    (hh1 : (mid ++ [w]).headI ≠ [])
    (hh2 : ltrim ((mid ++ [w]).headI) = (mid ++ [w]).headI) :
    ∃ S, read_until_tilde (mid ++ [lk]) = .ok (S, []) ∧ splitNl S = mid ++ [w] := by
  have hnlw : '\n' ∉ w := fun hmem =>
    hlnl (mem_of_mem_stripTildes_rtrim lk (hwdef ▸ hmem))
  cases mid with
  | nil =>
    have hltrw : ltrim w = w := by simpa using hh2
    have hrt : rustTrim w = w := by
      unfold rustTrim
      rw [hltrw, hwr]
    refine ⟨w, ?_, ?_⟩
    · unfold read_until_tilde
      rw [read_aux_run [] lk (by simp) hlk []]
      simp only [List.foldl_nil]
      rw [if_pos (hwdef ▸ hw), ← hwdef]
      simp [tildePush, hrt]
    · rw [splitNl_no_nl w hnlw]
      simp
  | cons L1 ms =>
    have hL1ne : L1 ≠ [] := by simpa using hh1
    have hltr : ltrim L1 = L1 := by simpa using hh2
    have hnlL1 : '\n' ∉ L1 := (hmid L1 (List.mem_cons_self _ _)).2
    have hfold : ((L1 :: ms).foldl tildePush []) =
        L1 ++ (ms.map (fun l => '\n' :: l)).flatten := by
      simp only [List.foldl_cons]
      rw [show tildePush [] L1 = L1 from by simp [tildePush]]
      exact foldl_tildePush ms L1 hL1ne
    have hSraw : tildePush ((L1 :: ms).foldl tildePush []) w =
        L1 ++ ((ms ++ [w]).map (fun l => '\n' :: l)).flatten := by
      rw [hfold]
      simp only [tildePush]
      rw [if_pos (show L1 ++ (ms.map (fun l => '\n' :: l)).flatten ≠ [] from by
        simp [hL1ne])]
      simp [List.append_assoc]
    have hS : rustTrim (tildePush ((L1 :: ms).foldl tildePush []) w) =
        L1 ++ ((ms ++ [w]).map (fun l => '\n' :: l)).flatten := by
      rw [hSraw]
      unfold rustTrim
      rw [ltrim_append_of L1 _ hL1ne hltr]
      rw [show L1 ++ ((ms ++ [w]).map (fun l => '\n' :: l)).flatten =
          (L1 ++ (ms.map (fun l => '\n' :: l)).flatten ++ ['\n']) ++ w from by
        simp [List.append_assoc]]
      rw [rtrim_append_of _ w hw hwr]
    refine ⟨L1 ++ ((ms ++ [w]).map (fun l => '\n' :: l)).flatten, ?_, ?_⟩
    · unfold read_until_tilde
      rw [read_aux_run (L1 :: ms) lk (fun l hl => (hmid l hl).1) hlk []]
      rw [if_pos (hwdef ▸ hw), ← hwdef, hS]
    · rw [splitNl_join (ms ++ [w]) (fun s hs => by
        rcases List.mem_append.mp hs with hin | hin
        · exact (hmid s (List.mem_cons_of_mem _ hin)).2
        · rw [List.mem_singleton.mp hin]; exact hnlw) L1 hnlL1]
      simp

/-- Witness for C3 (amended) at a concrete two-line field. -/
theorem read_until_tilde_roundtrip_witness :
    ∃ S, read_until_tilde [str "hello", str "world~"] = .ok (S, []) ∧
      splitNl S = [str "hello", str "world"] :=
  read_until_tilde_roundtrip [str "hello"] (str "world~") (str "world")
    (by decide) (by decide) (by decide) (by decide) (by decide) (by decide)
    (by decide) (by decide)

end Mud
